import Mathlib

/-
Verification development for the volunteer-roster pipeline
(create_volunteer_sheets.py, convert_to_pdf.py, retry_failed_conversions.py).

Spreadsheet cell values are modelled by `Val`: a cell is empty (`Val.none`,
Python `None` / pandas `NaN`), a string, or a number.  Python integer and
float cells are modelled by `Val.num : Int`; the scripts only ever use such
values through `str(int(v))`, which `toString : Int → String` matches.
-/

inductive Val where
  | none : Val
  | str : String → Val
  | num : Int → Val
deriving DecidableEq, Repr

/-- Python truthiness of a cell value, as used by `if not volunteer_name:`
(`None`, the empty string and numeric zero are falsy). -/
def Val.truthy : Val → Bool
  | Val.none => false
  | Val.str s => !(s == "")
  | Val.num n => !(n == 0)

abbrev Row := List Val

abbrev EKey := Val × String

abbrev RecMap := List (EKey × List Row)

/-- The identity phone of a row, from `process_sheet`:
`volunteer_phone = data[i][8] if len(data[i]) > 8 and data[i][8] is not None else ""`
followed by `str(int(volunteer_phone))` for numeric values. -/
def phoneOf (row : Row) : String :=
  match row.getD 8 Val.none with
  | Val.none => ""
  | Val.num n => toString n
  | Val.str s => s

/-- The grouping key of a row: `key = (volunteer_name, volunteer_phone)` with
`volunteer_name = data[i][7]`. -/
def rowKey (row : Row) : EKey := (row.getD 7 Val.none, phoneOf row)

/-- One dict update `volunteer_records.setdefault(key, []).append(record)`:
append the record to the entry for `key`, creating the entry at the end of
the map (Python dicts preserve insertion order) when it is absent. -/
def insertRecord (m : RecMap) (k : EKey) (r : Row) : RecMap :=
  match m with
  | [] => [(k, [r])]
  | (k', rs) :: rest =>
    if k' = k then (k', rs ++ [r]) :: rest
    else (k', rs) :: insertRecord rest k r

/-- One iteration of the grouping loop in `process_sheet` (lines 188-207):
rows with fewer than 9 cells are skipped, rows whose entity-name field
(index 7) is falsy are skipped, all other rows are recorded under their key. -/
def groupStep (m : RecMap) (row : Row) : RecMap :=
  if row.length < 9 then m
  else if (row.getD 7 Val.none).truthy then insertRecord m (rowKey row) row
  else m

/-- The record-grouping phase of `process_sheet`: fold the grouping loop over
all data rows (the header row, index 0, is excluded by `range(1, len(data))`). -/
def volunteerRecords (data : List Row) : RecMap :=
  (data.drop 1).foldl groupStep []

/-- Occurrence count of an entity name among the grouping keys
(`volunteer_name_counts` in `process_sheet`, lines 213-217). -/
def nameCount (m : RecMap) (name : Val) : Nat :=
  (m.map Prod.fst).countP (fun k => decide (k.1 = name))

/-- Python single-character `str.replace`, used by the filename sanitizer.
Replacing a one-character pattern by a one-character replacement is exactly a
character-wise map. -/
def replaceChar (s : String) (old new : Char) : String :=
  String.mk (s.data.map (fun c => if c = old then new else c))

/-- Filename sanitization from `process_sheet` line 329: the chain
`.replace('/', '_').replace('\\', '_')...replace('|', '_')` over the nine
filesystem-unsafe characters. -/
def sanitizeName (s : String) : String :=
  let s1 := replaceChar s '/' '_'
  let s2 := replaceChar s1 '\\' '_'
  let s3 := replaceChar s2 ':' '_'
  let s4 := replaceChar s3 '*' '_'
  let s5 := replaceChar s4 '?' '_'
  let s6 := replaceChar s5 '"' '_'
  let s7 := replaceChar s6 '<' '_'
  let s8 := replaceChar s7 '>' '_'
  replaceChar s8 '|' '_'

/-- Filename derivation from `process_sheet` lines 328-336 for a key whose
entity name is the string `name`: sanitize the name, and append the identity
phone exactly when the name occurs under more than one key. -/
def deriveFilenameStr (m : RecMap) (name : String) (phone : String) : String :=
  let safe := sanitizeName name
  if 1 < nameCount m (Val.str name) then safe ++ "_" ++ phone
  else safe

/- Association-map lemmas for `insertRecord`. -/

theorem insertRecord_nil (k : EKey) (r : Row) :
    insertRecord [] k r = [(k, [r])] := rfl

theorem insertRecord_cons (k' : EKey) (rs' : List Row) (rest : RecMap)
    (k : EKey) (r : Row) :
    insertRecord ((k', rs') :: rest) k r =
      if k' = k then (k', rs' ++ [r]) :: rest
      else (k', rs') :: insertRecord rest k r := rfl

theorem insertRecord_mem_self (m : RecMap) (k : EKey) (r : Row) :
    ∃ rs, (k, rs) ∈ insertRecord m k r ∧ r ∈ rs := by
  induction m with
  | nil =>
    refine ⟨[r], ?_, ?_⟩
    · rw [insertRecord_nil]; exact List.mem_singleton.mpr rfl
    · exact List.mem_singleton.mpr rfl
  | cons p rest ih =>
    obtain ⟨k', rs'⟩ := p
    by_cases hk : k' = k
    · subst hk
      refine ⟨rs' ++ [r], ?_, ?_⟩
      · rw [insertRecord_cons, if_pos rfl]; exact List.mem_cons_self _ _
      · exact List.mem_append_right _ (List.mem_singleton.mpr rfl)
    · obtain ⟨rs, hmem, hr⟩ := ih
      refine ⟨rs, ?_, hr⟩
      rw [insertRecord_cons, if_neg hk]
      exact List.mem_cons_of_mem _ hmem

theorem insertRecord_mem_elim (m : RecMap) (k : EKey) (r : Row)
    (k₁ : EKey) (rs₁ : List Row) (hmem : (k₁, rs₁) ∈ insertRecord m k r)
    (r' : Row) (hr : r' ∈ rs₁) :
    (∃ rs₀, (k₁, rs₀) ∈ m ∧ r' ∈ rs₀) ∨ (k₁ = k ∧ r' = r) := by
  induction m with
  | nil =>
    rw [insertRecord_nil] at hmem
    have heq := List.mem_singleton.mp hmem
    injection heq with hk1 hrs1
    subst hk1; subst hrs1
    exact Or.inr ⟨rfl, List.mem_singleton.mp hr⟩
  | cons p rest ih =>
    obtain ⟨k', rs'⟩ := p
    by_cases hk : k' = k
    · subst hk
      rw [insertRecord_cons, if_pos rfl] at hmem
      rcases List.mem_cons.mp hmem with heq | htail
      · injection heq with hk1 hrs1
        subst hk1; subst hrs1
        rcases List.mem_append.mp hr with hl | hl
        · exact Or.inl ⟨rs', List.mem_cons_self _ _, hl⟩
        · exact Or.inr ⟨rfl, List.mem_singleton.mp hl⟩
      · exact Or.inl ⟨rs₁, List.mem_cons_of_mem _ htail, hr⟩
    · rw [insertRecord_cons, if_neg hk] at hmem
      rcases List.mem_cons.mp hmem with heq | htail
      · injection heq with hk1 hrs1
        subst hk1; subst hrs1
        exact Or.inl ⟨rs₁, List.mem_cons_self _ _, hr⟩
      · rcases ih htail with ⟨rs₀, h₀, hr₀⟩ | hkr
        · exact Or.inl ⟨rs₀, List.mem_cons_of_mem _ h₀, hr₀⟩
        · exact Or.inr hkr

theorem insertRecord_preserve_mem (m : RecMap) (k : EKey) (r : Row)
    (k₁ : EKey) (rs₁ : List Row) (hmem : (k₁, rs₁) ∈ m) (r' : Row) (hr : r' ∈ rs₁) :
    ∃ rs₂, (k₁, rs₂) ∈ insertRecord m k r ∧ r' ∈ rs₂ := by
  induction m with
  | nil => cases hmem
  | cons p rest ih =>
    obtain ⟨k', rs'⟩ := p
    by_cases hk : k' = k
    · subst hk
      rcases List.mem_cons.mp hmem with heq | htail
      · injection heq with hk1 hrs1
        subst hk1; subst hrs1
        refine ⟨rs₁ ++ [r], ?_, List.mem_append_left _ hr⟩
        rw [insertRecord_cons, if_pos rfl]
        exact List.mem_cons_self _ _
      · refine ⟨rs₁, ?_, hr⟩
        rw [insertRecord_cons, if_pos rfl]
        exact List.mem_cons_of_mem _ htail
    · rcases List.mem_cons.mp hmem with heq | htail
      · injection heq with hk1 hrs1
        subst hk1; subst hrs1
        refine ⟨rs₁, ?_, hr⟩
        rw [insertRecord_cons, if_neg hk]
        exact List.mem_cons_self _ _
      · obtain ⟨rs₂, h₂, hr₂⟩ := ih htail
        refine ⟨rs₂, ?_, hr₂⟩
        rw [insertRecord_cons, if_neg hk]
        exact List.mem_cons_of_mem _ h₂

theorem insertRecord_key_mem (m : RecMap) (k : EKey) (r : Row) (a : EKey) :
    a ∈ (insertRecord m k r).map Prod.fst ↔ a ∈ m.map Prod.fst ∨ a = k := by
  induction m with
  | nil => rw [insertRecord_nil]; simp
  | cons p rest ih =>
    obtain ⟨k', rs'⟩ := p
    by_cases hk : k' = k
    · subst hk
      rw [insertRecord_cons, if_pos rfl]
      simp only [List.map_cons, List.mem_cons]
      tauto
    · rw [insertRecord_cons, if_neg hk]
      simp only [List.map_cons, List.mem_cons, ih]
      tauto

theorem insertRecord_nodup_keys (m : RecMap) (k : EKey) (r : Row)
    (h : (m.map Prod.fst).Nodup) : ((insertRecord m k r).map Prod.fst).Nodup := by
  induction m with
  | nil => rw [insertRecord_nil]; simp
  | cons p rest ih =>
    obtain ⟨k', rs'⟩ := p
    simp only [List.map_cons, List.nodup_cons] at h
    obtain ⟨hk', hrest⟩ := h
    by_cases hk : k' = k
    · subst hk
      rw [insertRecord_cons, if_pos rfl]
      simp only [List.map_cons, List.nodup_cons]
      exact ⟨hk', hrest⟩
    · rw [insertRecord_cons, if_neg hk]
      simp only [List.map_cons, List.nodup_cons]
      refine ⟨?_, ih hrest⟩
      intro hmem
      rcases (insertRecord_key_mem rest k r k').mp hmem with h' | h'
      · exact hk' h'
      · exact hk h'

theorem insertRecord_stored (P : EKey → Row → Prop) (m : RecMap) (k : EKey) (r : Row)
    (hm : ∀ p ∈ m, ∀ r' ∈ p.2, P p.1 r') (hk : P k r) :
    ∀ p ∈ insertRecord m k r, ∀ r' ∈ p.2, P p.1 r' := by
  induction m with
  | nil =>
    intro p hp r' hr'
    rw [insertRecord_nil] at hp
    have hp' := List.mem_singleton.mp hp
    subst hp'
    simp only [List.mem_singleton] at hr'
    subst hr'
    exact hk
  | cons q rest ih =>
    obtain ⟨k', rs'⟩ := q
    by_cases hkk : k' = k
    · subst hkk
      intro p hp r' hr'
      rw [insertRecord_cons, if_pos rfl] at hp
      rcases List.mem_cons.mp hp with heq | htail
      · subst heq
        simp only [List.mem_append, List.mem_singleton] at hr'
        rcases hr' with hl | hl
        · exact hm _ (List.mem_cons_self _ _) _ hl
        · subst hl; exact hk
      · exact hm _ (List.mem_cons_of_mem _ htail) _ hr'
    · intro p hp r' hr'
      rw [insertRecord_cons, if_neg hkk] at hp
      rcases List.mem_cons.mp hp with heq | htail
      · subst heq
        exact hm _ (List.mem_cons_self _ _) _ hr'
      · exact ih (fun q hq => hm q (List.mem_cons_of_mem _ hq)) p htail r' hr'

/- Lemmas about the grouping fold. -/

theorem groupStep_skip_short (m : RecMap) (row : Row) (h : row.length < 9) :
    groupStep m row = m := by
  unfold groupStep
  rw [if_pos h]

theorem groupStep_skip_falsy (m : RecMap) (row : Row)
    (h : (row.getD 7 Val.none).truthy = false) :
    groupStep m row = m := by
  unfold groupStep
  by_cases hl : row.length < 9
  · rw [if_pos hl]
  · rw [if_neg hl, h]
    simp

theorem groupStep_insert (m : RecMap) (row : Row) (h9 : ¬ row.length < 9)
    (ht : (row.getD 7 Val.none).truthy = true) :
    groupStep m row = insertRecord m (rowKey row) row := by
  unfold groupStep
  rw [if_neg h9, ht]
  simp

/-- The per-entry invariant of the grouping fold: every stored record has at
least 9 cells, a truthy entity name, and is stored under its own key. -/
def StoredOK (m : RecMap) : Prop :=
  ∀ p ∈ m, ∀ r ∈ p.2,
    rowKey r = p.1 ∧ 9 ≤ r.length ∧ (r.getD 7 Val.none).truthy = true

theorem groupStep_storedOK (m : RecMap) (row : Row) (h : StoredOK m) :
    StoredOK (groupStep m row) := by
  by_cases h9 : row.length < 9
  · rw [groupStep_skip_short m row h9]; exact h
  · cases ht : (row.getD 7 Val.none).truthy with
    | false => rw [groupStep_skip_falsy m row ht]; exact h
    | true =>
      rw [groupStep_insert m row h9 ht]
      exact insertRecord_stored
        (fun k r => rowKey r = k ∧ 9 ≤ r.length ∧ (r.getD 7 Val.none).truthy = true)
        m (rowKey row) row h ⟨rfl, Nat.le_of_not_lt h9, ht⟩

theorem foldl_groupStep_storedOK (l : List Row) (m : RecMap) (h : StoredOK m) :
    StoredOK (l.foldl groupStep m) := by
  induction l generalizing m with
  | nil => exact h
  | cons row rest ih => exact ih _ (groupStep_storedOK m row h)

theorem volunteerRecords_storedOK (data : List Row) : StoredOK (volunteerRecords data) := by
  unfold volunteerRecords
  exact foldl_groupStep_storedOK _ [] (by intro p hp; cases hp)

theorem groupStep_nodup_keys (m : RecMap) (row : Row)
    (h : (m.map Prod.fst).Nodup) : ((groupStep m row).map Prod.fst).Nodup := by
  by_cases h9 : row.length < 9
  · rw [groupStep_skip_short m row h9]; exact h
  · cases ht : (row.getD 7 Val.none).truthy with
    | false => rw [groupStep_skip_falsy m row ht]; exact h
    | true =>
      rw [groupStep_insert m row h9 ht]
      exact insertRecord_nodup_keys m _ row h

theorem foldl_groupStep_nodup_keys (l : List Row) (m : RecMap)
    (h : (m.map Prod.fst).Nodup) : ((l.foldl groupStep m).map Prod.fst).Nodup := by
  induction l generalizing m with
  | nil => exact h
  | cons row rest ih => exact ih _ (groupStep_nodup_keys m row h)

theorem volunteerRecords_nodup_keys (data : List Row) :
    ((volunteerRecords data).map Prod.fst).Nodup :=
  foldl_groupStep_nodup_keys _ [] List.nodup_nil

theorem foldl_groupStep_preserve_mem (l : List Row) (m : RecMap)
    (k : EKey) (rs : List Row) (hmem : (k, rs) ∈ m) (r : Row) (hr : r ∈ rs) :
    ∃ rs', (k, rs') ∈ l.foldl groupStep m ∧ r ∈ rs' := by
  induction l generalizing m rs with
  | nil => exact ⟨rs, hmem, hr⟩
  | cons row rest ih =>
    by_cases h9 : row.length < 9
    · rw [List.foldl_cons, groupStep_skip_short m row h9]
      exact ih m rs hmem hr
    · cases ht : (row.getD 7 Val.none).truthy with
      | false =>
        rw [List.foldl_cons, groupStep_skip_falsy m row ht]
        exact ih m rs hmem hr
      | true =>
        rw [List.foldl_cons, groupStep_insert m row h9 ht]
        obtain ⟨rs₂, h₂, hr₂⟩ := insertRecord_preserve_mem m (rowKey row) row k rs hmem r hr
        exact ih _ rs₂ h₂ hr₂

theorem foldl_groupStep_mem_of_mem (l : List Row) (m : RecMap) (r : Row)
    (hl : r ∈ l) (h9 : 9 ≤ r.length) (ht : (r.getD 7 Val.none).truthy = true) :
    ∃ rs, (rowKey r, rs) ∈ l.foldl groupStep m ∧ r ∈ rs := by
  induction l generalizing m with
  | nil => cases hl
  | cons row rest ih =>
    rcases List.mem_cons.mp hl with heq | htail
    · subst heq
      rw [List.foldl_cons, groupStep_insert m r (Nat.not_lt.mpr h9) ht]
      obtain ⟨rs, hmem, hr⟩ := insertRecord_mem_self m (rowKey r) r
      exact foldl_groupStep_preserve_mem rest _ (rowKey r) rs hmem r hr
    · rw [List.foldl_cons]
      exact ih _ htail

/-- A list element at a positive index lies in the tail of the list. -/
theorem get_mem_drop_one (data : List Row) (i : Nat) (h1 : 1 ≤ i) (h2 : i < data.length) :
    data.get ⟨i, h2⟩ ∈ data.drop 1 := by
  cases data with
  | nil => cases h2
  | cons d rest =>
    cases i with
    | zero => cases h1
    | succ j =>
      show rest.get ⟨j, _⟩ ∈ rest
      exact rest.get_mem _ _

/-- Two distinct elements that both satisfy a predicate force its count above one. -/
theorem countP_two_of_mem {α : Type} (l : List α) (p : α → Bool) (a b : α)
    (hab : a ≠ b) (ha : a ∈ l) (hb : b ∈ l)
    (hpa : p a = true) (hpb : p b = true) : 1 < l.countP p := by
  obtain ⟨s, t, rfl⟩ := List.append_of_mem ha
  have hbst : b ∈ s ∨ b ∈ t := by
    rcases List.mem_append.mp hb with hbs | hbt
    · exact Or.inl hbs
    · rcases List.mem_cons.mp hbt with hba | hbt'
      · exact absurd hba.symm hab
      · exact Or.inr hbt'
  rw [List.countP_append, List.countP_cons, hpa, if_pos rfl]
  rcases hbst with hbs | hbt
  · have hs : 0 < s.countP p := List.countP_pos_iff.mpr ⟨b, hbs, hpb⟩
    omega
  · have ht : 0 < t.countP p := List.countP_pos_iff.mpr ⟨b, hbt, hpb⟩
    omega

/-- Appending to a fixed string on the left is injective. -/
theorem string_append_cancel_left (a b c : String) (h : a ++ b = a ++ c) : b = c := by
  have hd : (a ++ b).data = (a ++ c).data := congrArg String.data h
  rw [String.data_append, String.data_append] at hd
  have hbc := List.append_cancel_left hd
  cases b
  cases c
  exact congrArg String.mk hbc

/-- C1 (amended): every data row (index at least 1) with at least 9 cells and
a truthy entity-name field at index 7 lands in exactly one entity group of
`volunteerRecords`, keyed by (entity name, identity phone); rows with a falsy
entity-name field are in no group; and the grouping keys are pairwise
distinct, so group membership determines a unique group. -/
theorem grouper_places_each_eligible_row_in_exactly_one_group
    (data : List Row) (i : Nat) (h1 : 1 ≤ i) (h2 : i < data.length) :
    (9 ≤ (data.get ⟨i, h2⟩).length →
      ((data.get ⟨i, h2⟩).getD 7 Val.none).truthy = true →
      (∃ rs, (rowKey (data.get ⟨i, h2⟩), rs) ∈ volunteerRecords data ∧
        data.get ⟨i, h2⟩ ∈ rs) ∧
      (∀ k rs, (k, rs) ∈ volunteerRecords data → data.get ⟨i, h2⟩ ∈ rs →
        k = rowKey (data.get ⟨i, h2⟩))) ∧
    (((data.get ⟨i, h2⟩).getD 7 Val.none).truthy = false →
      ∀ k rs, (k, rs) ∈ volunteerRecords data → data.get ⟨i, h2⟩ ∉ rs) ∧
    ((volunteerRecords data).map Prod.fst).Nodup := by
  refine ⟨?_, ?_, volunteerRecords_nodup_keys data⟩
  · intro h9 ht
    constructor
    · exact foldl_groupStep_mem_of_mem (data.drop 1) [] _
        (get_mem_drop_one data i h1 h2) h9 ht
    · intro k rs hmem hr
      exact ((volunteerRecords_storedOK data (k, rs) hmem _ hr).1).symm
  · intro ht k rs hmem hr
    have hstored := volunteerRecords_storedOK data (k, rs) hmem _ hr
    rw [hstored.2.2] at ht
    cases ht

def c1DemoHeader : Row := List.replicate 9 (Val.str "h")

def c1DemoRow : Row :=
  [Val.str "a", Val.str "b", Val.str "c", Val.str "d", Val.str "e",
   Val.str "f", Val.str "g", Val.str "N", Val.str "1"]

def c1DemoData : List Row := [c1DemoHeader, c1DemoRow]

theorem grouper_places_each_eligible_row_in_exactly_one_group_witness :
    9 ≤ c1DemoRow.length ∧ (c1DemoRow.getD 7 Val.none).truthy = true ∧
    (∃ rs, (rowKey c1DemoRow, rs) ∈ volunteerRecords c1DemoData ∧ c1DemoRow ∈ rs) :=
  ⟨by decide, by decide,
    ((grouper_places_each_eligible_row_in_exactly_one_group c1DemoData 1
      (by decide) (by decide)).1 (by decide) (by decide)).1⟩

def c1ShortRow : Row :=
  [Val.str "a", Val.str "b", Val.str "c", Val.str "d", Val.str "e",
   Val.str "f", Val.str "g", Val.str "X"]

/-- C1 counterexample: a data row with only 8 cells and the non-empty entity
name "X" at index 7 is placed in no entity group at all (the resulting map is
empty), refuting the claim that every row with a non-empty entity-name field
lands in exactly one group. -/
theorem grouper_drops_short_row_with_nonempty_name :
    volunteerRecords [c1DemoHeader, c1ShortRow] = [] ∧
    c1ShortRow.getD 7 Val.none = Val.str "X" ∧
    (c1ShortRow.getD 7 Val.none).truthy = true := by decide

/-- C10: any data row with fewer than 9 cells is excluded from every entity
group built by the Record Grouper, regardless of its entity-name field. -/
theorem short_rows_land_in_no_group (data : List Row) (i : Nat)
    (h2 : i < data.length) (hshort : (data.get ⟨i, h2⟩).length < 9) :
    ∀ k rs, (k, rs) ∈ volunteerRecords data → data.get ⟨i, h2⟩ ∉ rs := by
  intro k rs hmem hr
  have hstored := volunteerRecords_storedOK data (k, rs) hmem _ hr
  exact absurd hstored.2.1 (Nat.not_le.mpr hshort)

def c10Data : List Row := [c1DemoHeader, c1DemoRow, c1ShortRow]

theorem short_rows_land_in_no_group_witness :
    c1ShortRow.length < 9 ∧ c1ShortRow ∉ [c1DemoRow] :=
  ⟨by decide,
    short_rows_land_in_no_group c10Data 2 (by decide) (by decide)
      (Val.str "N", "1") [c1DemoRow] (by decide)⟩

/-- C2 (amended): whenever two distinct entity keys of a processed sheet share
the same entity name, their derived filenames differ, because the occurrence
count of that name exceeds one and so both filenames carry their (distinct)
phone suffixes.  (Filenames of keys with different names may still collide
after sanitization, so filenames within one sheet are not unique in general.) -/
theorem same_name_distinct_keys_get_distinct_filenames
    (data : List Row) (n p₁ p₂ : String) (hne : p₁ ≠ p₂)
    (h₁ : (Val.str n, p₁) ∈ (volunteerRecords data).map Prod.fst)
    (h₂ : (Val.str n, p₂) ∈ (volunteerRecords data).map Prod.fst) :
    deriveFilenameStr (volunteerRecords data) n p₁ ≠
      deriveFilenameStr (volunteerRecords data) n p₂ := by
  have hkeys : (Val.str n, p₁) ≠ (Val.str n, p₂) := by
    intro h
    exact hne (congrArg Prod.snd h)
  have hcount : 1 < nameCount (volunteerRecords data) (Val.str n) := by
    unfold nameCount
    exact countP_two_of_mem _ _ _ _ hkeys h₁ h₂ (by simp) (by simp)
  have e₁ : deriveFilenameStr (volunteerRecords data) n p₁ = sanitizeName n ++ "_" ++ p₁ := by
    simp only [deriveFilenameStr]
    rw [if_pos hcount]
  have e₂ : deriveFilenameStr (volunteerRecords data) n p₂ = sanitizeName n ++ "_" ++ p₂ := by
    simp only [deriveFilenameStr]
    rw [if_pos hcount]
  intro heq
  rw [e₁, e₂] at heq
  exact hne (string_append_cancel_left (sanitizeName n ++ "_") p₁ p₂ heq)

def c2DupRow1 : Row :=
  [Val.str "a", Val.str "b", Val.str "c", Val.str "d", Val.str "e",
   Val.str "f", Val.str "g", Val.str "N", Val.str "1"]

def c2DupRow2 : Row :=
  [Val.str "a", Val.str "b", Val.str "c", Val.str "d", Val.str "e",
   Val.str "f", Val.str "g", Val.str "N", Val.str "2"]

def c2DupData : List Row := [c1DemoHeader, c2DupRow1, c2DupRow2]

theorem same_name_distinct_keys_get_distinct_filenames_witness :
    ("1" : String) ≠ "2" ∧
    (Val.str "N", ("1" : String)) ∈ (volunteerRecords c2DupData).map Prod.fst ∧
    (Val.str "N", ("2" : String)) ∈ (volunteerRecords c2DupData).map Prod.fst ∧
    deriveFilenameStr (volunteerRecords c2DupData) "N" "1" ≠
      deriveFilenameStr (volunteerRecords c2DupData) "N" "2" :=
  ⟨by decide, by decide, by decide,
    same_name_distinct_keys_get_distinct_filenames c2DupData "N" "1" "2"
      (by decide) (by decide) (by decide)⟩

def c2CollideRow1 : Row :=
  [Val.str "a", Val.str "b", Val.str "c", Val.str "d", Val.str "e",
   Val.str "f", Val.str "g", Val.str "A/B", Val.str "1"]

def c2CollideRow2 : Row :=
  [Val.str "a", Val.str "b", Val.str "c", Val.str "d", Val.str "e",
   Val.str "f", Val.str "g", Val.str "A_B", Val.str "2"]

def c2CollideData : List Row := [c1DemoHeader, c2CollideRow1, c2CollideRow2]

/-- C2 counterexample: two distinct entity keys with the different names
"A/B" and "A_B" (each name occurring once) derive the same filename "A_B",
refuting the claim that filenames within one sheet are unique. -/
theorem distinct_entities_can_collide_on_filenames :
    (Val.str "A/B", ("1" : String)) ∈ (volunteerRecords c2CollideData).map Prod.fst ∧
    (Val.str "A_B", ("2" : String)) ∈ (volunteerRecords c2CollideData).map Prod.fst ∧
    (Val.str "A/B", ("1" : String)) ≠ (Val.str "A_B", ("2" : String)) ∧
    deriveFilenameStr (volunteerRecords c2CollideData) "A/B" "1" =
      deriveFilenameStr (volunteerRecords c2CollideData) "A_B" "2" ∧
    deriveFilenameStr (volunteerRecords c2CollideData) "A/B" "1" = "A_B" := by decide

/- Export Driver pagination policy (convert_to_pdf.py lines 94-107 and
retry_failed_conversions.py lines 204-217). -/

/-- Rounding of the exact rational `num / den` to the nearest integer with
ties going to the even neighbour, which is what Python's `round` computes on
`(last_row + 2) / 48` (halves of the form `odd/2` are exactly representable
as floats, and all other quotients arising here are far enough from a half
that float rounding agrees with exact rational rounding). -/
def roundHalfToEven (num den : Nat) : Nat :=
  let q := num / den
  let r := num % den
  if 2 * r < den then q
  else if den < 2 * r then q + 1
  else if q % 2 = 0 then q else q + 1

/-- The vertical-fit print setting chosen for a sheet: `FitToPagesTall = n`
or `FitToPagesTall = False` (no vertical constraint). -/
inductive PageFit where
  | fitPages : Nat → PageFit
  | unconstrained : PageFit
deriving DecidableEq, Repr

/-- The pagination policy of `convert_excel_file_to_pdf` (convert_to_pdf.py,
lines 94-107): sheets with `last_row <= 45` are forced onto a single page;
otherwise `pages_needed = max(1, round((last_row + 2) / 48))` is computed and
`FitToPagesTall` is set to it only when it exceeds 1, remaining `False`
(unconstrained) otherwise. -/
def fitTallSetting (last_row : Nat) : PageFit :=
  if last_row ≤ 45 then PageFit.fitPages 1
  else
    let pages_needed := max 1 (roundHalfToEven (last_row + 2) 48)
    if 1 < pages_needed then PageFit.fitPages pages_needed
    else PageFit.unconstrained

/-- The identical pagination policy of `convert_excel_to_pdf_single_file`
(retry_failed_conversions.py, lines 204-217). -/
def fitTallSettingRetry (last_row : Nat) : PageFit :=
  if last_row ≤ 45 then PageFit.fitPages 1
  else
    let pages_needed := max 1 (roundHalfToEven (last_row + 2) 48)
    if 1 < pages_needed then PageFit.fitPages pages_needed
    else PageFit.unconstrained

/-- The pagination policy as the claim states it: single-page fit when the
row count is at most 45, otherwise allow `max(1, round((row_count + 2) / 48))`
vertical pages. -/
def claimedFitTallSetting (row_count : Nat) : PageFit :=
  if row_count ≤ 45 then PageFit.fitPages 1
  else PageFit.fitPages (max 1 (roundHalfToEven (row_count + 2) 48))

/-- C3 counterexample: for a sheet with 50 rows the claimed policy would
allow exactly `max(1, round(52/48)) = 1` vertical page, but the code leaves
the vertical fit unconstrained (`FitToPagesTall = False`), so the claimed
policy disagrees with the implemented one. -/
theorem pagination_policy_differs_at_50_rows :
    fitTallSetting 50 = PageFit.unconstrained ∧
    claimedFitTallSetting 50 = PageFit.fitPages 1 ∧
    fitTallSetting 50 ≠ claimedFitTallSetting 50 ∧
    fitTallSettingRetry 50 = fitTallSetting 50 := by decide

/-- C3 (amended): the pagination policy fits sheets of at most 45 rows on a
single page; for larger sheets it computes
`pages = max(1, round((row_count + 2) / 48))` and allows that many vertical
pages when `pages > 1`, leaving the vertical page count unconstrained when
the computed `pages` equals 1; a 40-row document fits one page, a 100-row
document yields 2 pages; the retry-path policy is identical. -/
theorem pagination_policy_amended (n : Nat) :
    (n ≤ 45 → fitTallSetting n = PageFit.fitPages 1) ∧
    (45 < n → 1 < roundHalfToEven (n + 2) 48 →
      fitTallSetting n = PageFit.fitPages (max 1 (roundHalfToEven (n + 2) 48))) ∧
    (45 < n → roundHalfToEven (n + 2) 48 ≤ 1 →
      fitTallSetting n = PageFit.unconstrained) ∧
    fitTallSettingRetry n = fitTallSetting n ∧
    fitTallSetting 40 = PageFit.fitPages 1 ∧
    fitTallSetting 100 = PageFit.fitPages 2 := by
  refine ⟨?_, ?_, ?_, ?_, by decide, by decide⟩
  · intro h
    unfold fitTallSetting
    rw [if_pos h]
  · intro h45 hp
    have hmax : max 1 (roundHalfToEven (n + 2) 48) = roundHalfToEven (n + 2) 48 :=
      Nat.max_eq_right (Nat.le_of_lt hp)
    unfold fitTallSetting
    rw [if_neg (Nat.not_le.mpr h45)]
    simp only [hmax]
    rw [if_pos hp]
  · intro h45 hp
    have hmax : max 1 (roundHalfToEven (n + 2) 48) = 1 := Nat.max_eq_left hp
    unfold fitTallSetting
    rw [if_neg (Nat.not_le.mpr h45)]
    simp only [hmax]
    rw [if_neg (by omega)]
  · unfold fitTallSetting fitTallSettingRetry
    rfl

theorem pagination_policy_amended_witness :
    (45 < 100 ∧ 1 < roundHalfToEven 102 48) ∧
    fitTallSetting 100 = PageFit.fitPages (max 1 (roundHalfToEven 102 48)) :=
  ⟨⟨by decide, by decide⟩,
    (pagination_policy_amended 100).2.1 (by decide) (by decide)⟩

/- Retry Orchestrator contact-repair heuristic
(retry_failed_conversions.py lines 100-145; the same loop appears in
create_volunteer_sheets.py lines 31-60). -/

/-- A character the repair loop keeps:
`char.isdigit() or char in ['+', '-', ' ', '(', ')']`. -/
def isKeptPhoneChar (c : Char) : Bool :=
  c.isDigit || c == '+' || c == '-' || c == ' ' || c == '(' || c == ')'

/-- The character-stripping inner loop: build `cleaned_val` from the kept
characters of `val`, in order. -/
def cleanChars (s : String) : String :=
  String.mk (s.data.filter isKeptPhoneChar)

/-- Python `val.startswith("#")`. -/
def startsWithHash (s : String) : Bool :=
  match s.data with
  | [] => false
  | c :: _ => c == '#'

/-- The sentinel phone value used by the repair heuristic. -/
def phoneSentinel : String := "1111111111"

/-- The per-value contact/phone repair heuristic from
`convert_excel_to_pdf_single_file` (retry_failed_conversions.py lines
100-131): `fillna("1111111111")` rewrites missing values to the sentinel,
then the loop rewrites `"#ERROR!"`/`#`-prefixed and empty strings to the
sentinel and strips invalid characters from other strings, falling back to
the sentinel when nothing remains; non-string (numeric) values are left
unchanged. -/
def repairContact : Val → Val
  | Val.none => Val.str phoneSentinel
  | Val.num n => Val.num n
  | Val.str s =>
    if s == "#ERROR!" || startsWithHash s then Val.str phoneSentinel
    else if s == "" then Val.str phoneSentinel
    else if cleanChars s == "" then Val.str phoneSentinel
    else Val.str (cleanChars s)

/-- Python `str(col).lower()` restricted to the ASCII names appearing here. -/
def toLowerStr (s : String) : String :=
  String.mk (s.data.map Char.toLower)

/-- Whether `pat` occurs at the start of `l`. -/
def leadMatch : List Char → List Char → Bool
  | [], _ => true
  | _ :: _, [] => false
  | a :: as, b :: bs => a == b && leadMatch as bs

/-- Whether `pat` occurs as a contiguous substring of `l`
(Python's `in` operator on strings). -/
def hasSubstring (pat : List Char) : List Char → Bool
  | [] => pat.isEmpty
  | c :: rest => leadMatch pat (c :: rest) || hasSubstring pat rest

/-- The mobile-column detector:
`'mobile' in str(col).lower() or 'phone' in str(col).lower()`. -/
def isMobileColName (c : String) : Bool :=
  hasSubstring "mobile".data (toLowerStr c).data ||
    hasSubstring "phone".data (toLowerStr c).data

/-- The first matching mobile column, `for col in df.columns: ... break`. -/
def findMobileCol (cols : List String) : Option String :=
  cols.find? isMobileColName

/-- A pandas data frame, as the repair step sees it: ordered named columns. -/
abbrev Frame := List (String × List Val)

/-- Frame row count (`len(df)`): the common length of its columns. -/
def frameRowCount : Frame → Nat
  | [] => 0
  | c :: _ => c.2.length

/-- The whole-frame repair step (retry_failed_conversions.py lines 89-145):
repair every value of the mobile column when one exists, otherwise append a
synthesized `"Mobile"` column holding the sentinel for every row
(`df["Mobile"] = "1111111111"`). -/
def repairFrame (f : Frame) : Frame :=
  match findMobileCol (f.map Prod.fst) with
  | some name =>
    f.map (fun c => if c.1 == name then (c.1, c.2.map repairContact) else c)
  | Option.none =>
    f ++ [("Mobile", List.replicate (frameRowCount f) (Val.str phoneSentinel))]

/-- C4: the repair heuristic sends missing values, `#`-prefixed error markers
and empty strings to the sentinel `"1111111111"`; every other string is
stripped to its kept characters (digits, `+`, `-`, `(`, `)`, space), with the
sentinel as fallback when nothing remains; and a frame with no contact column
gains a synthesized `"Mobile"` column holding the sentinel for every row. -/
theorem contact_repair_heuristic_behaviour :
    (repairContact Val.none = Val.str phoneSentinel) ∧
    (∀ s : String, startsWithHash s = true →
      repairContact (Val.str s) = Val.str phoneSentinel) ∧
    (repairContact (Val.str "") = Val.str phoneSentinel) ∧
    (∀ s : String, startsWithHash s = false → s ≠ "" →
      repairContact (Val.str s) =
        (if cleanChars s = "" then Val.str phoneSentinel
         else Val.str (cleanChars s))) ∧
    (∀ f : Frame, findMobileCol (f.map Prod.fst) = Option.none →
      repairFrame f =
        f ++ [("Mobile", List.replicate (frameRowCount f) (Val.str phoneSentinel))]) := by
  refine ⟨rfl, ?_, by decide, ?_, ?_⟩
  · intro s hs
    simp only [repairContact]
    rw [hs, Bool.or_true, if_pos rfl]
  · intro s hs hne
    have hbe : (s == "#ERROR!") = false := by
      cases hbe : s == "#ERROR!" with
      | false => rfl
      | true =>
        have : s = "#ERROR!" := by exact_mod_cast beq_iff_eq.mp hbe
        subst this
        cases hs
    have hempty : (s == "") = false := by
      cases hem : s == "" with
      | false => rfl
      | true => exact absurd (beq_iff_eq.mp hem) hne
    simp only [repairContact]
    rw [hbe, hs, Bool.or_self, if_neg (by simp), hempty, if_neg (by simp)]
    by_cases hc : cleanChars s = ""
    · rw [if_pos hc, if_pos (beq_iff_eq.mpr hc)]
    · rw [if_neg hc, if_neg (by simpa using hc)]
  · intro f hf
    unfold repairFrame
    rw [hf]

theorem contact_repair_heuristic_behaviour_witness :
    startsWithHash "12a3" = false ∧ ("12a3" : String) ≠ "" ∧
    repairContact (Val.str "12a3") =
      (if cleanChars "12a3" = "" then Val.str phoneSentinel
       else Val.str (cleanChars "12a3")) :=
  ⟨by decide, by decide,
    contact_repair_heuristic_behaviour.2.2.2.1 "12a3" (by decide) (by decide)⟩

theorem startsWithHash_cleanChars (s : String) :
    startsWithHash (cleanChars s) = false := by
  cases h : s.data.filter isKeptPhoneChar with
  | nil => simp [cleanChars, startsWithHash, h]
  | cons c tl =>
    have hmem : c ∈ s.data.filter isKeptPhoneChar := by
      rw [h]; exact List.mem_cons_self c tl
    have hc := (List.mem_filter.mp hmem).2
    have hch : (c == '#') = false := by
      cases hcc : c == '#' with
      | false => rfl
      | true =>
        have hcq : c = '#' := beq_iff_eq.mp hcc
        subst hcq
        exact absurd hc (by decide)
    simp [startsWithHash, cleanChars, h, hch]

theorem cleanChars_idem (s : String) :
    cleanChars (cleanChars s) = cleanChars s := by
  unfold cleanChars
  apply congrArg String.mk
  rw [show (String.mk (s.data.filter isKeptPhoneChar)).data =
        s.data.filter isKeptPhoneChar from rfl]
  simp [List.filter_filter]

/-- C5: the contact-repair heuristic is idempotent: applying it twice yields
the same value as applying it once, for every cell value. -/
theorem contact_repair_idempotent (v : Val) :
    repairContact (repairContact v) = repairContact v := by
  cases v with
  | none => decide
  | num n => rfl
  | str s =>
    have step : repairContact (Val.str s) = Val.str phoneSentinel ∨
        (repairContact (Val.str s) = Val.str (cleanChars s) ∧ cleanChars s ≠ "") := by
      simp only [repairContact]
      by_cases h1 : (s == "#ERROR!" || startsWithHash s) = true
      · rw [if_pos h1]; exact Or.inl rfl
      · rw [if_neg h1]
        by_cases h2 : (s == "") = true
        · rw [if_pos h2]; exact Or.inl rfl
        · rw [if_neg h2]
          by_cases h3 : (cleanChars s == "") = true
          · rw [if_pos h3]; exact Or.inl rfl
          · rw [if_neg h3]
            exact Or.inr ⟨rfl, by simpa using h3⟩
    rcases step with h | ⟨h, hne⟩
    · rw [h]; decide
    · rw [h]
      have hhash := startsWithHash_cleanChars s
      have hbe : (cleanChars s == "#ERROR!") = false := by
        cases hcc : cleanChars s == "#ERROR!" with
        | false => rfl
        | true =>
          have hceq : cleanChars s = "#ERROR!" := beq_iff_eq.mp hcc
          rw [hceq] at hhash
          exact absurd hhash (by decide)
      have hne' : (cleanChars s == "") = false := by
        cases hcc : cleanChars s == "" with
        | false => rfl
        | true => exact absurd (beq_iff_eq.mp hcc) hne
      simp only [repairContact]
      rw [hbe, hhash, Bool.or_self, if_neg (by simp), hne', if_neg (by simp),
        cleanChars_idem, hne', if_neg (by simp)]

/- Failure Ledger (convert_to_pdf.py `create_failed_list_excel`, lines
335-394, and retry_failed_conversions.py `collect_failed_files`, lines 35-66,
and `update_failed_list`, lines 314-352).

A ledger file is modelled as its grid of cells (`Grid`), one `Row` per sheet
row; `Option Grid` distinguishes a missing/unreadable file (`Option.none`)
from a present one. -/

abbrev Grid := List Row

/-- The grid written by `create_failed_list_excel`: a merged title cell in
A1, a blank row 2, column captions in row 3, and one data row per failure
from row 4 on (each with the shared capture timestamp `now`). -/
def failedListGrid (tab : String) (failures : List (String × String))
    (now : String) : Grid :=
  [Val.str ("Failed PDF Conversions - " ++ tab), Val.none, Val.none] ::
  [Val.none, Val.none, Val.none] ::
  [Val.str "File Name", Val.str "Error Message", Val.str "Date/Time"] ::
  failures.map (fun fe => [Val.str fe.1, Val.str fe.2, Val.str now])

/-- `create_failed_list_excel`: a no-op (no file written) when the failure
list is empty, otherwise the grid above is persisted. -/
def createFailedListExcel (tab : String) (failures : List (String × String))
    (now : String) : Option Grid :=
  if failures.isEmpty then Option.none
  else some (failedListGrid tab failures now)

/-- The column name pandas assigns to a header cell: the cell text, or
`Unnamed: i` for an empty cell at position `i`. -/
def pandasColName (i : Nat) (v : Val) : String :=
  match v with
  | Val.none => "Unnamed: " ++ toString i
  | Val.str s => s
  | Val.num n => toString n

/-- The column names `pd.read_excel` derives from the first sheet row
(default `header=0`). -/
def pandasColsOf (g : Grid) : List String :=
  (g.headD []).enum.map (fun p => pandasColName p.1 p.2)

/-- A row that is entirely empty; `pd.read_excel` skips such blank rows. -/
def isBlankRow (r : Row) : Bool := r.all (fun v => v == Val.none)

/-- The data rows of the frame `pd.read_excel` builds from a ledger grid:
everything after the header row, with blank rows skipped. -/
def gridBody (g : Grid) : List Row :=
  (g.drop 1).filter (fun r => !isBlankRow r)

/-- Python `str(file) if file is not None else ""` applied to a cell as
pandas delivers it: blank cells surface as float NaN (never `None`), so they
stringify to `"nan"`; other cells stringify to their contents. -/
def pyStrOfCell : Val → String
  | Val.none => "nan"
  | Val.str s => s
  | Val.num n => toString n

/-- `collect_failed_files` on a readable ledger grid: select the
`'File Name'` column if the frame has one and the first column otherwise,
stringify every entry, and drop empty strings. -/
def collectFromGrid (g : Grid) : List String :=
  let cols := pandasColsOf g
  let idx := if cols.contains "File Name"
    then cols.findIdx (fun c => c == "File Name") else 0
  ((gridBody g).map (fun r => pyStrOfCell (r.getD idx Val.none))).filter
    (fun s => !(s == ""))

/-- `collect_failed_files` including its `try/except`: reading a missing or
unreadable ledger reports the error and yields the empty list. -/
def collectFailedFiles (file : Option Grid) : List String :=
  match file with
  | Option.none => []
  | some g => collectFromGrid g

/-- C6, evaluated at the failing input: recording the single failure
`("A.xlsx", "boom")` and reading the ledger back yields
`["File Name", "A.xlsx"]` — the writer's caption row leaks into the result
because the reader sees the title row as the frame header and falls back to
the first column — not `["A.xlsx"]` as the round-trip property demands.  The
empty-record no-op and the unreadable-ledger fallback do hold. -/
theorem ledger_roundtrip_returns_header_label :
    collectFailedFiles
        (createFailedListExcel "mandal1" [("A.xlsx", "boom")] "2025-01-01") =
      ["File Name", "A.xlsx"] ∧
    (["File Name", "A.xlsx"] : List String) ≠ ["A.xlsx"] ∧
    createFailedListExcel "mandal1" [] "2025-01-01" = Option.none ∧
    collectFailedFiles Option.none = [] := by decide

/-- The index `df['File Name']` selects when present. -/
def fileNameIdxOf (g : Grid) : Nat :=
  (pandasColsOf g).findIdx (fun c => c == "File Name")

/-- The row filter `df[df['File Name'].isin(still_failed_files)]`: a row is
kept exactly when its File-Name cell is a string listed in `still`. -/
def rowStillFailing (still : List String) (idx : Nat) (r : Row) : Bool :=
  match r.getD idx Val.none with
  | Val.str s => still.contains s
  | _ => false

/-- `update_failed_list` (retry_failed_conversions.py lines 314-352): with an
empty still-failing list the ledger file is deleted; otherwise the frame is
re-read and rewritten (`to_excel(index=False)` emits the column names as the
first row) keeping only the rows whose File Name is still failing, or — when
the frame has no `'File Name'` column — a fresh three-column frame with one
row per still-failing filename. -/
def updateFailedList (g : Grid) (still : List String) (now : String) :
    Option Grid :=
  if still.isEmpty then Option.none
  else if (pandasColsOf g).contains "File Name" then
    some ((pandasColsOf g).map Val.str ::
      (gridBody g).filter (rowStillFailing still (fileNameIdxOf g)))
  else
    some ([Val.str "File Name", Val.str "Error Message", Val.str "Date/Time"] ::
      still.map (fun f =>
        [Val.str f, Val.str "Conversion failed after retry", Val.str now]))

theorem updateFailedList_col_case (g : Grid) (still : List String) (now : String)
    (hne : still ≠ []) (hcol : (pandasColsOf g).contains "File Name" = true) :
    updateFailedList g still now =
      some ((pandasColsOf g).map Val.str ::
        (gridBody g).filter (rowStillFailing still (fileNameIdxOf g))) := by
  have hempty : still.isEmpty = false := by
    cases still with
    | nil => exact absurd rfl hne
    | cons a l => rfl
  unfold updateFailedList
  rw [hempty]
  simp only [Bool.false_eq_true, if_false]
  rw [hcol]
  simp

/-- C7: updating a ledger with an empty still-failing list deletes it; with a
non-empty list the rewritten ledger body consists exactly of the previous
entries whose filename is still failing (membership is characterized by the
filter predicate), or, when the ledger lacks a `'File Name'` column, of one
fresh entry per still-failing filename and nothing else. -/
theorem ledger_update_keeps_exactly_still_failing
    (g : Grid) (still : List String) (now : String) :
    (updateFailedList g [] now = Option.none) ∧
    (still ≠ [] → (pandasColsOf g).contains "File Name" = true →
      updateFailedList g still now =
        some ((pandasColsOf g).map Val.str ::
          (gridBody g).filter (rowStillFailing still (fileNameIdxOf g))) ∧
      ∀ r : Row,
        r ∈ (gridBody g).filter (rowStillFailing still (fileNameIdxOf g)) ↔
          (r ∈ gridBody g ∧ rowStillFailing still (fileNameIdxOf g) r = true)) ∧
    (still ≠ [] → (pandasColsOf g).contains "File Name" = false →
      updateFailedList g still now =
        some ([Val.str "File Name", Val.str "Error Message", Val.str "Date/Time"] ::
          still.map (fun f =>
            [Val.str f, Val.str "Conversion failed after retry", Val.str now])) ∧
      ∀ f ∈ still,
        [Val.str f, Val.str "Conversion failed after retry", Val.str now] ∈
          still.map (fun f =>
            [Val.str f, Val.str "Conversion failed after retry", Val.str now])) := by
  refine ⟨rfl, ?_, ?_⟩
  · intro hne hcol
    constructor
    · exact updateFailedList_col_case g still now hne hcol
    · intro r
      exact List.mem_filter
  · intro hne hcol
    have hempty : still.isEmpty = false := by
      cases still with
      | nil => exact absurd rfl hne
      | cons a l => rfl
    constructor
    · unfold updateFailedList
      rw [hempty]
      simp only [Bool.false_eq_true, if_false]
      rw [hcol]
      simp
    · intro f hf
      exact List.mem_map_of_mem _ hf

def c7DemoGrid : Grid :=
  [[Val.str "File Name", Val.str "Error Message", Val.str "Date/Time"],
   [Val.str "A.xlsx", Val.str "e1", Val.str "t1"],
   [Val.str "B.xlsx", Val.str "e2", Val.str "t1"]]

theorem ledger_update_keeps_exactly_still_failing_witness :
    ((["A.xlsx"] : List String) ≠ []) ∧
    ((pandasColsOf c7DemoGrid).contains "File Name" = true) ∧
    updateFailedList c7DemoGrid ["A.xlsx"] "t2" =
      some ((pandasColsOf c7DemoGrid).map Val.str ::
        (gridBody c7DemoGrid).filter
          (rowStillFailing ["A.xlsx"] (fileNameIdxOf c7DemoGrid))) :=
  ⟨by decide, by decide,
    ((ledger_update_keeps_exactly_still_failing c7DemoGrid ["A.xlsx"] "t2").2.1
      (by decide) (by decide)).1⟩

/- Retry Orchestrator per-file attempt loop
(retry_failed_conversions.py, `retry_failed_conversions`, lines 401-439):

    success = False
    for attempt in range(3):
        if attempt > 0:
            time.sleep(2)
        success = convert_excel_to_pdf_single_file(excel_file, pdf_path)
        if success: break

The outcome of each would-be attempt is an oracle `o : Nat → Bool`. -/

/-- An observable event of the per-file retry loop: a backoff sleep of a
fixed number of seconds, or a conversion attempt with its outcome. -/
inductive RetryEv where
  | sleep : Nat → RetryEv
  | attempt : Nat → Bool → RetryEv
deriving DecidableEq, Repr

/-- The event trace of the loop body starting at attempt index `i` with
`fuel` loop iterations remaining: sleep 2 seconds before every attempt but
the first, then attempt, then stop on success. -/
def retryEvents (o : Nat → Bool) : Nat → Nat → List RetryEv
  | _, 0 => []
  | i, fuel + 1 =>
    (if 0 < i then [RetryEv.sleep 2] else []) ++
    RetryEv.attempt i (o i) ::
    (if o i then [] else retryEvents o (i + 1) fuel)

/-- The full event trace of `for attempt in range(3)` for one failing file. -/
def fileRetryTrace (o : Nat → Bool) : List RetryEv := retryEvents o 0 3

/-- The loop's final success flag (`success` after the loop). -/
def retryOutcome (o : Nat → Bool) : Nat → Nat → Bool
  | _, 0 => false
  | i, fuel + 1 => if o i then true else retryOutcome o (i + 1) fuel

/-- Whether some of the (at most 3) attempts succeeded for one file. -/
def fileRetrySuccess (o : Nat → Bool) : Bool := retryOutcome o 0 3

def isAttempt : RetryEv → Bool
  | RetryEv.attempt _ _ => true
  | _ => false

def countAttempts (t : List RetryEv) : Nat := (t.filter isAttempt).length

def isSleepTwo : RetryEv → Bool
  | RetryEv.sleep 2 => true
  | _ => false

/-- Every attempt event other than the head of the trace is immediately
preceded by a 2-second sleep event. -/
def backoffObserved : List RetryEv → Bool
  | x :: y :: rest =>
    ((!isAttempt y) || isSleepTwo x) && backoffObserved (y :: rest)
  | _ => true

/-- One iteration of the per-file loop of the retry pass: missing source
files and files whose conversion never succeeded are appended to
`still_failed_files`. -/
def retryPassStep (fileExists : String → Bool) (o : String → Nat → Bool)
    (acc : List String) (f : String) : List String :=
  if !(fileExists f) then acc ++ [f]
  else if fileRetrySuccess (o f) then acc
  else acc ++ [f]

/-- The `still_failed_files` list accumulated by one retry pass over the
failing filenames of one ledger. -/
def retryPassStillFailed (files : List String) (fileExists : String → Bool)
    (o : String → Nat → Bool) : List String :=
  files.foldl (retryPassStep fileExists o) []

theorem fileRetryTrace_eq (o : Nat → Bool) :
    fileRetryTrace o =
      RetryEv.attempt 0 (o 0) ::
      (if o 0 then [] else
        RetryEv.sleep 2 :: RetryEv.attempt 1 (o 1) ::
        (if o 1 then [] else
          RetryEv.sleep 2 :: RetryEv.attempt 2 (o 2) ::
          (if o 2 then [] else []))) := rfl

theorem fileRetrySuccess_eq (o : Nat → Bool) :
    fileRetrySuccess o =
      (if o 0 then true else if o 1 then true else if o 2 then true else false) := rfl

theorem retryPass_mem_of_mem_acc (files : List String) (fileExists : String → Bool)
    (o : String → Nat → Bool) (acc : List String) (f : String) (h : f ∈ acc) :
    f ∈ files.foldl (retryPassStep fileExists o) acc := by
  induction files generalizing acc with
  | nil => exact h
  | cons g rest ih =>
    rw [List.foldl_cons]
    apply ih
    unfold retryPassStep
    by_cases h1 : fileExists g
    · rw [h1]
      by_cases h2 : fileRetrySuccess (o g) = true
      · simp only [Bool.not_true, Bool.false_eq_true, if_false, h2, if_true]
        exact h
      · simp only [Bool.not_true, Bool.false_eq_true, if_false,
          Bool.not_eq_true] at h2 ⊢
        rw [h2]
        simp only [Bool.false_eq_true, if_false]
        exact List.mem_append_left _ h
    · simp only [Bool.not_eq_true] at h1
      rw [h1]
      simp only [Bool.not_false, if_true]
      exact List.mem_append_left _ h

theorem retryPass_mem_of_failed (files : List String) (fileExists : String → Bool)
    (o : String → Nat → Bool) (acc : List String) (f : String)
    (hf : f ∈ files) (hfail : fileRetrySuccess (o f) = false) :
    f ∈ files.foldl (retryPassStep fileExists o) acc := by
  induction files generalizing acc with
  | nil => cases hf
  | cons g rest ih =>
    rcases List.mem_cons.mp hf with heq | htail
    · subst heq
      rw [List.foldl_cons]
      apply retryPass_mem_of_mem_acc
      unfold retryPassStep
      by_cases h1 : fileExists f
      · rw [h1, hfail]
        simp only [Bool.not_true, Bool.false_eq_true, if_false]
        exact List.mem_append_right _ (List.mem_singleton.mpr rfl)
      · simp only [Bool.not_eq_true] at h1
        rw [h1]
        simp only [Bool.not_false, if_true]
        exact List.mem_append_right _ (List.mem_singleton.mpr rfl)
    · rw [List.foldl_cons]
      exact ih _ htail

/-- C8: per failing file the Retry Orchestrator makes at most 3 conversion
attempts; every attempt after the first is immediately preceded by the fixed
2-second backoff sleep; attempts stop at the first success (the first
success at index `i` gives exactly `i + 1` attempts); when all 3 attempts
fail the loop reports failure and the filename joins the still-failing list
of the pass; and a still-failing filename's ledger row survives the ledger
rewrite performed after the pass. -/
theorem retry_loop_bounded_attempts_with_backoff :
    (∀ o : Nat → Bool, countAttempts (fileRetryTrace o) ≤ 3) ∧
    (∀ o : Nat → Bool, backoffObserved (fileRetryTrace o) = true) ∧
    (∀ (o : Nat → Bool) (i : Nat), i < 3 → o i = true → (∀ j, j < i → o j = false) →
      countAttempts (fileRetryTrace o) = i + 1 ∧ fileRetrySuccess o = true) ∧
    (∀ o : Nat → Bool, o 0 = false → o 1 = false → o 2 = false →
      fileRetrySuccess o = false ∧ countAttempts (fileRetryTrace o) = 3) ∧
    (∀ (files : List String) (fileExists : String → Bool)
        (o : String → Nat → Bool) (f : String),
      f ∈ files → fileRetrySuccess (o f) = false →
      f ∈ retryPassStillFailed files fileExists o) ∧
    (∀ (g : Grid) (still : List String) (now f : String) (r : Row),
      (pandasColsOf g).contains "File Name" = true →
      r ∈ gridBody g → r.getD (fileNameIdxOf g) Val.none = Val.str f →
      f ∈ still →
      ∃ body, updateFailedList g still now =
        some ((pandasColsOf g).map Val.str :: body) ∧ r ∈ body) := by
  refine ⟨?_, ?_, ?_, ?_, ?_, ?_⟩
  · intro o
    rw [fileRetryTrace_eq]
    cases h0 : o 0 <;> cases h1 : o 1 <;> cases h2 : o 2 <;>
      simp [countAttempts, isAttempt]
  · intro o
    rw [fileRetryTrace_eq]
    cases h0 : o 0 <;> cases h1 : o 1 <;> cases h2 : o 2 <;>
      simp [backoffObserved, isAttempt, isSleepTwo]
  · intro o i hi hoi hprev
    rw [fileRetryTrace_eq, fileRetrySuccess_eq]
    match i, hi with
    | 0, _ =>
      rw [hoi]
      simp [countAttempts, isAttempt]
    | 1, _ =>
      have h0 := hprev 0 (by omega)
      rw [h0, hoi]
      simp [countAttempts, isAttempt]
    | 2, _ =>
      have h0 := hprev 0 (by omega)
      have h1 := hprev 1 (by omega)
      rw [h0, h1, hoi]
      simp [countAttempts, isAttempt]
  · intro o h0 h1 h2
    rw [fileRetryTrace_eq, fileRetrySuccess_eq, h0, h1, h2]
    simp [countAttempts, isAttempt]
  · intro files fileExists o f hf hfail
    exact retryPass_mem_of_failed files fileExists o [] f hf hfail
  · intro g still now f r hcol hr hcell hf
    have hne : still ≠ [] := by
      intro h
      rw [h] at hf
      cases hf
    refine ⟨(gridBody g).filter (rowStillFailing still (fileNameIdxOf g)),
      updateFailedList_col_case g still now hne hcol, ?_⟩
    apply List.mem_filter.mpr
    refine ⟨hr, ?_⟩
    unfold rowStillFailing
    rw [hcell]
    exact List.elem_eq_true_of_mem hf

theorem retry_loop_bounded_attempts_with_backoff_witness :
    ((fun _ : Nat => false) 0 = false ∧ (fun _ : Nat => false) 1 = false ∧
      (fun _ : Nat => false) 2 = false) ∧
    (fileRetrySuccess (fun _ => false) = false ∧
      countAttempts (fileRetryTrace (fun _ => false)) = 3) ∧
    ("A.xlsx" ∈ (["A.xlsx"] : List String) ∧
      fileRetrySuccess ((fun _ _ => false) "A.xlsx") = false) ∧
    "A.xlsx" ∈ retryPassStillFailed ["A.xlsx"] (fun _ => true) (fun _ _ => false) :=
  ⟨⟨rfl, rfl, rfl⟩,
    retry_loop_bounded_attempts_with_backoff.2.2.2.1 (fun _ => false) rfl rfl rfl,
    ⟨List.mem_singleton.mpr rfl, rfl⟩,
    retry_loop_bounded_attempts_with_backoff.2.2.2.2.1 ["A.xlsx"] (fun _ => true)
      (fun _ _ => false) "A.xlsx" (List.mem_singleton.mpr rfl) rfl⟩

/- Document Renderer persistence loop (create_volunteer_sheets.py,
`process_sheet` lines 237-356): for each sorted key a workbook is built and
`new_wb.save(excel_path)` is attempted inside `try/except`; on success
`processed_count` is incremented, on failure the error is printed and the
loop continues with the next volunteer.  The save outcome is an oracle
`save : EKey → Except String Unit`. -/

def exceptOk : Except String Unit → Bool
  | Except.ok _ => true
  | Except.error _ => false

/-- Python `f"{value}"` for the cell values appearing in error messages. -/
def pyShowVal : Val → String
  | Val.none => "None"
  | Val.str s => s
  | Val.num n => toString n

/-- One iteration of the per-volunteer persistence loop: on a successful
save the processed count grows, on an exception the per-entity error message
(`print(f"Error saving file for {volunteer_name}: {e}")`) is reported and
the state is otherwise unchanged. -/
def saveStep (save : EKey → Except String Unit) (st : Nat × List String)
    (k : EKey) : Nat × List String :=
  match save k with
  | Except.ok _ => (st.1 + 1, st.2)
  | Except.error e =>
    (st.1, st.2 ++ ["Error saving file for " ++ pyShowVal k.1 ++ ": " ++ e])

/-- The whole persistence loop over a list of volunteer keys, returning the
final `processed_count` and the reported error messages. -/
def saveVolunteerLoop (keys : List EKey) (save : EKey → Except String Unit) :
    Nat × List String :=
  keys.foldl (saveStep save) (0, [])

/-- Lexicographic code-point comparison of character lists: Python's `<` on
strings (identical in meaning to Lean's `String` order, implemented on the
character lists so that it evaluates by reduction). -/
def charListLt : List Char → List Char → Bool
  | [], [] => false
  | [], _ :: _ => true
  | _ :: _, [] => false
  | a :: as, b :: bs => if a < b then true else if b < a then false else charListLt as bs

/-- Python `sorted(..., key=lambda k: k[0])` compares keys by entity name
only; names are strings throughout (non-string names would raise in Python). -/
def nameLtKey (a b : EKey) : Bool :=
  match a.1, b.1 with
  | Val.str x, Val.str y => charListLt x.data y.data
  | _, _ => false

/-- Stable insertion of a key into an already sorted list: the new key goes
after every existing key that is not strictly greater, which preserves the
original order of equal names exactly as Python's stable `sorted` does. -/
def insertSortedKey (a : EKey) : List EKey → List EKey
  | [] => [a]
  | b :: bs => if nameLtKey b a then b :: insertSortedKey a bs else a :: b :: bs

/-- `sorted_keys = sorted(volunteer_records.keys(), key=lambda k: k[0])`,
modelled as a stable sort by entity name. -/
def sortedVolunteerKeys (m : RecMap) : List EKey :=
  (m.map Prod.fst).foldr insertSortedKey []

/-- The persistence phase of `process_sheet` for one sheet: run the save
loop over the sorted volunteer keys. -/
def processSheetSave (data : List Row) (save : EKey → Except String Unit) :
    Nat × List String :=
  saveVolunteerLoop (sortedVolunteerKeys (volunteerRecords data)) save

theorem countP_add_countP_not {α : Type} (p : α → Bool) (l : List α) :
    l.countP p + l.countP (fun a => !p a) = l.length := by
  induction l with
  | nil => rfl
  | cons a t ih =>
    rw [List.countP_cons, List.countP_cons]
    cases h : p a <;> simp [h] <;> omega

theorem saveLoop_counts (save : EKey → Except String Unit) (keys : List EKey)
    (c : Nat) (errs : List String) :
    (keys.foldl (saveStep save) (c, errs)).1 =
      c + keys.countP (fun k => exceptOk (save k)) ∧
    (keys.foldl (saveStep save) (c, errs)).2.length =
      errs.length + keys.countP (fun k => !exceptOk (save k)) := by
  induction keys generalizing c errs with
  | nil => simp
  | cons k rest ih =>
    rw [List.foldl_cons, List.countP_cons, List.countP_cons]
    cases hsk : save k with
    | ok u =>
      have hstep : saveStep save (c, errs) k = (c + 1, errs) := by
        unfold saveStep
        rw [hsk]
      rw [hstep]
      obtain ⟨ih1, ih2⟩ := ih (c + 1) errs
      constructor
      · rw [ih1]
        simp [exceptOk, hsk]
        omega
      · rw [ih2]
        simp [exceptOk, hsk]
    | error e =>
      have hstep : saveStep save (c, errs) k =
          (c, errs ++ ["Error saving file for " ++ pyShowVal k.1 ++ ": " ++ e]) := by
        unfold saveStep
        rw [hsk]
      rw [hstep]
      obtain ⟨ih1, ih2⟩ := ih c
        (errs ++ ["Error saving file for " ++ pyShowVal k.1 ++ ": " ++ e])
      constructor
      · rw [ih1]
        simp [exceptOk, hsk]
      · rw [ih2]
        simp [exceptOk, hsk]
        omega

theorem saveLoop_errs_extend (save : EKey → Except String Unit) (keys : List EKey)
    (c : Nat) (errs : List String) :
    ∃ tail, (keys.foldl (saveStep save) (c, errs)).2 = errs ++ tail := by
  induction keys generalizing c errs with
  | nil => exact ⟨[], (List.append_nil errs).symm⟩
  | cons k rest ih =>
    rw [List.foldl_cons]
    cases hsk : save k with
    | ok u =>
      have hstep : saveStep save (c, errs) k = (c + 1, errs) := by
        unfold saveStep
        rw [hsk]
      rw [hstep]
      exact ih (c + 1) errs
    | error e =>
      have hstep : saveStep save (c, errs) k =
          (c, errs ++ ["Error saving file for " ++ pyShowVal k.1 ++ ": " ++ e]) := by
        unfold saveStep
        rw [hsk]
      rw [hstep]
      obtain ⟨tail, ht⟩ := ih c
        (errs ++ ["Error saving file for " ++ pyShowVal k.1 ++ ": " ++ e])
      exact ⟨("Error saving file for " ++ pyShowVal k.1 ++ ": " ++ e) :: tail,
        by rw [ht, List.append_assoc]; rfl⟩

theorem saveLoop_err_mem (save : EKey → Except String Unit) (keys : List EKey)
    (c : Nat) (errs : List String) (k : EKey) (e : String)
    (hk : k ∈ keys) (hsv : save k = Except.error e) :
    ("Error saving file for " ++ pyShowVal k.1 ++ ": " ++ e) ∈
      (keys.foldl (saveStep save) (c, errs)).2 := by
  induction keys generalizing c errs with
  | nil => cases hk
  | cons g rest ih =>
    rw [List.foldl_cons]
    rcases List.mem_cons.mp hk with heq | htail
    · subst heq
      have hstep : saveStep save (c, errs) k =
          (c, errs ++ ["Error saving file for " ++ pyShowVal k.1 ++ ": " ++ e]) := by
        unfold saveStep
        rw [hsv]
      rw [hstep]
      obtain ⟨tail, ht⟩ := saveLoop_errs_extend save rest c
        (errs ++ ["Error saving file for " ++ pyShowVal k.1 ++ ": " ++ e])
      rw [ht]
      exact List.mem_append_left _
        (List.mem_append_right _ (List.mem_singleton.mpr rfl))
    · exact ih _ _ htail

/-- C9: a failed save never aborts the per-sheet batch: the loop reaches
every sorted volunteer key, the returned `processed_count` counts exactly the
volunteers whose documents saved successfully, the number of reported errors
counts exactly the failures, successes and failures together account for
every volunteer, and every failing volunteer gets its own reported error
message. -/
theorem save_failure_skips_entity_and_continues
    (data : List Row) (save : EKey → Except String Unit) :
    (processSheetSave data save).1 =
      (sortedVolunteerKeys (volunteerRecords data)).countP
        (fun k => exceptOk (save k)) ∧
    (processSheetSave data save).2.length =
      (sortedVolunteerKeys (volunteerRecords data)).countP
        (fun k => !exceptOk (save k)) ∧
    (processSheetSave data save).1 + (processSheetSave data save).2.length =
      (sortedVolunteerKeys (volunteerRecords data)).length ∧
    (∀ k ∈ sortedVolunteerKeys (volunteerRecords data), ∀ e,
      save k = Except.error e →
      ("Error saving file for " ++ pyShowVal k.1 ++ ": " ++ e) ∈
        (processSheetSave data save).2) := by
  obtain ⟨h1, h2⟩ := saveLoop_counts save (sortedVolunteerKeys (volunteerRecords data)) 0 []
  refine ⟨?_, ?_, ?_, ?_⟩
  · unfold processSheetSave saveVolunteerLoop
    rw [h1]
    omega
  · unfold processSheetSave saveVolunteerLoop
    rw [h2]
    simp
  · unfold processSheetSave saveVolunteerLoop
    rw [h1, h2]
    have h3 := countP_add_countP_not (fun k => exceptOk (save k))
      (sortedVolunteerKeys (volunteerRecords data))
    simp only [List.length_nil]
    omega
  · intro k hk e hsv
    unfold processSheetSave saveVolunteerLoop
    exact saveLoop_err_mem save _ 0 [] k e hk hsv

/-- A save oracle that fails for the volunteer with phone "1" and succeeds
for everyone else. -/
def demoSave : EKey → Except String Unit :=
  fun k => if k.2 == "1" then Except.error "disk full" else Except.ok ()

theorem save_failure_skips_entity_and_continues_witness :
    (Val.str "N", ("1" : String)) ∈ sortedVolunteerKeys (volunteerRecords c2DupData) ∧
    demoSave (Val.str "N", "1") = Except.error "disk full" ∧
    ("Error saving file for " ++ pyShowVal (Val.str "N") ++ ": " ++ "disk full") ∈
      (processSheetSave c2DupData demoSave).2 :=
  ⟨by decide, rfl,
    (save_failure_skips_entity_and_continues c2DupData demoSave).2.2.2
      (Val.str "N", "1") (by decide) "disk full" rfl⟩
